import Mathlib

/-!
Verification of the partial-message join engine in `joins/joiner.py`
(repository `faust_joins`).

The engine is a single constructor `make_joining_func` that validates the
backing table's `default` attribute and returns a closure
`processor_function` implementing the fetch / merge / write / re-read /
sufficiency / process-or-incomplete / evict cycle.

Shallow embedding choices:
* The Faust table becomes `Table K M`: an inspectable `default : Option M`
  (Python `None` ↦ `none`) together with `entries : K → Option M`.
  `Table.get`, `Table.setItem`, `Table.getItem`, `Table.pop` embed
  `tbl.get(k, d)`, `tbl[k] = v`, `tbl[k]` and `tbl.pop(k)`; a missing key on
  `getItem`/`pop` is the `KeyError` branch.
* Caller-supplied callables may raise, so they return `Except E _`; the
  processor's outcome is `Except (PyExc E) (Option R)` where `PyExc.user e`
  is an exception raised by a callable, propagated as-is, and
  `PyExc.keyError` is a dict `KeyError`.  Python `None` results map to
  `Option.none` in `Option R`.
* Python mutation of the captured table becomes explicit state passing: the
  processor takes the current table and returns the updated one.
* To reason about which callables were invoked, the processor also returns a
  trace (`List (CallEvent M)`) recording each invocation with its arguments,
  in order.
-/

namespace FaustJoins

/-- Embeds the exception class `TableJoinDefaultException` raised by the
construction guard (`joiner.py` lines 21-32, raised at line 70-71). -/
inductive TableJoinDefaultException : Type where
  | mk : TableJoinDefaultException
deriving DecidableEq

/-- A Python exception surfacing out of `processor_function`: either an
exception raised by a caller-supplied callable (propagated unchanged), or a
dict `KeyError` from `tbl[k]` / `tbl.pop(k)` on a missing key. -/
inductive PyExc (E : Type) : Type where
  | user (e : E) : PyExc E
  | keyError : PyExc E
deriving DecidableEq

/-- The join store: a Faust table / dict-like object with an inspectable
`default` attribute (`none` models Python `None`) and keyed entries. -/
structure Table (K M : Type) : Type where
  default : Option M
  entries : K → Option M

/-- `tbl.get(k, fallback)`.  Faust tables route a failed lookup through
`__missing__`, which prioritizes the table's own default over the caller
supplied one (see the docstring of `TableJoinDefaultException`); only when
the table default is absent does the caller's fallback apply. -/
def Table.get {K M : Type} (t : Table K M) (k : K) (fallback : M) : M :=
  match t.entries k with
  | some v => v
  | none =>
    match t.default with
    | some d => d
    | none => fallback

/-- `tbl[k] = v`: upsert, leaving the configured default untouched. -/
def Table.setItem {K M : Type} [DecidableEq K] (t : Table K M) (k : K) (v : M) :
    Table K M :=
  { t with entries := fun k' => if k' = k then some v else t.entries k' }

/-- `tbl[k]`: `__getitem__`.  A present key returns its value; a missing key
returns the table default when one is configured (`__missing__`), and
otherwise raises `KeyError`, modelled as `none`. -/
def Table.getItem {K M : Type} (t : Table K M) (k : K) : Option M :=
  match t.entries k with
  | some v => some v
  | none => t.default

/-- `tbl.pop(k)` with no default: removes the key and returns its value, or
raises `KeyError` (modelled as `none`) when the key is absent.  `pop` never
consults `__missing__`. -/
def Table.pop {K M : Type} [DecidableEq K] (t : Table K M) (k : K) :
    Option (M × Table K M) :=
  match t.entries k with
  | some v =>
    some (v, { t with entries := fun k' => if k' = k then none else t.entries k' })
  | none => none

/-- Trace of one invocation of a caller-supplied callable, with its
arguments: used to state which callables ran during a call and on what. -/
inductive CallEvent (M : Type) : Type where
  | keyEv (arg : M) : CallEvent M
  | mergeEv (newMsg extant : M) : CallEvent M
  | suffEv (arg : M) : CallEvent M
  | processEv (arg : M) : CallEvent M
  | incompleteEv (arg : M) : CallEvent M
deriving DecidableEq

/-- The arguments of the `process_fn` invocations appearing in a trace. -/
def processArgs {M : Type} (log : List (CallEvent M)) : List M :=
  log.filterMap fun ev =>
    match ev with
    | CallEvent.processEv a => some a
    | _ => none

/-- The arguments of the `incomplete_handler` invocations in a trace. -/
def incompleteArgs {M : Type} (log : List (CallEvent M)) : List M :=
  log.filterMap fun ev =>
    match ev with
    | CallEvent.incompleteEv a => some a
    | _ => none

/-- The argument pairs of the `merge_fn` invocations in a trace
(new fragment first, extant composite second). -/
def mergeArgs {M : Type} (log : List (CallEvent M)) : List (M × M) :=
  log.filterMap fun ev =>
    match ev with
    | CallEvent.mergeEv a b => some (a, b)
    | _ => none

/-- Embeds the closure `processor_function` (`joiner.py` lines 74-83):

    def processor_function(new_message):
        k = key_fn(new_message)
        extant_message = tbl.get(k, new_message)
        tbl[k] = merge_fn(new_message, extant_message)
        updated_message = tbl[k]
        if sufficiency_fn(updated_message):
            processed = process_fn(updated_message)
            tbl.pop(k)
            return processed
        return incomplete_handler(updated_message)

State-passing on the table; an `Except.error` from a callable aborts the
call at that point and propagates unchanged (`PyExc.user`); a failing
`tbl[k]` re-read or `tbl.pop(k)` would be a `KeyError`.  The returned trace
lists the callable invocations of the call in order. -/
def processor_function {K M R E : Type} [DecidableEq K]
    (key_fn : M → Except E K)
    (merge_fn : M → M → Except E M)
    (sufficiency_fn : M → Except E Bool)
    (process_fn : M → Except E (Option R))
    (incomplete_handler : M → Except E (Option R))
    (tbl : Table K M) (new_message : M) :
    Table K M × List (CallEvent M) × Except (PyExc E) (Option R) :=
  match key_fn new_message with
  | Except.error e => (tbl, [CallEvent.keyEv new_message], Except.error (PyExc.user e))
  | Except.ok k =>
    let extant_message := tbl.get k new_message
    match merge_fn new_message extant_message with
    | Except.error e =>
      (tbl, [CallEvent.keyEv new_message, CallEvent.mergeEv new_message extant_message],
        Except.error (PyExc.user e))
    | Except.ok merged =>
      let tbl1 := tbl.setItem k merged
      match tbl1.getItem k with
      | none =>
        (tbl1, [CallEvent.keyEv new_message, CallEvent.mergeEv new_message extant_message],
          Except.error PyExc.keyError)
      | some updated_message =>
        match sufficiency_fn updated_message with
        | Except.error e =>
          (tbl1, [CallEvent.keyEv new_message,
                  CallEvent.mergeEv new_message extant_message,
                  CallEvent.suffEv updated_message],
            Except.error (PyExc.user e))
        | Except.ok true =>
          match process_fn updated_message with
          | Except.error e =>
            (tbl1, [CallEvent.keyEv new_message,
                    CallEvent.mergeEv new_message extant_message,
                    CallEvent.suffEv updated_message,
                    CallEvent.processEv updated_message],
              Except.error (PyExc.user e))
          | Except.ok processed =>
            match tbl1.pop k with
            | none =>
              (tbl1, [CallEvent.keyEv new_message,
                      CallEvent.mergeEv new_message extant_message,
                      CallEvent.suffEv updated_message,
                      CallEvent.processEv updated_message],
                Except.error PyExc.keyError)
            | some (_, tbl2) =>
              (tbl2, [CallEvent.keyEv new_message,
                      CallEvent.mergeEv new_message extant_message,
                      CallEvent.suffEv updated_message,
                      CallEvent.processEv updated_message],
                Except.ok processed)
        | Except.ok false =>
          (tbl1, [CallEvent.keyEv new_message,
                  CallEvent.mergeEv new_message extant_message,
                  CallEvent.suffEv updated_message,
                  CallEvent.incompleteEv updated_message],
            (incomplete_handler updated_message).mapError PyExc.user)

/-- Embeds `make_joining_func` (`joiner.py` lines 35-85): validates that the
table has no configured default (raising `TableJoinDefaultException`
otherwise), substitutes a no-op for an absent `handle_incomplete_fn`
(`handle_incomplete_fn or (lambda r: None)`), and returns the processor
closure bound to the callables. -/
def make_joining_func {K M R E : Type} [DecidableEq K]
    (tbl : Table K M)
    (key_fn : M → Except E K)
    (merge_fn : M → M → Except E M)
    (sufficiency_fn : M → Except E Bool)
    (process_fn : M → Except E (Option R))
    (handle_incomplete_fn : Option (M → Except E (Option R))) :
    Except TableJoinDefaultException
      (Table K M → M → Table K M × List (CallEvent M) × Except (PyExc E) (Option R)) :=
  if tbl.default.isSome then
    Except.error TableJoinDefaultException.mk
  else
    let incomplete_handler :=
      handle_incomplete_fn.getD (fun _ => Except.ok none)
    Except.ok (processor_function key_fn merge_fn sufficiency_fn process_fn
      incomplete_handler)

/-- Runs a sequence of calls through the processor, threading the table and
stopping with `none` as soon as a call raises; `some tbl'` means every call
in the sequence completed (returned normally). -/
def runCallsOk {K M R E : Type} [DecidableEq K]
    (key_fn : M → Except E K)
    (merge_fn : M → M → Except E M)
    (sufficiency_fn : M → Except E Bool)
    (process_fn : M → Except E (Option R))
    (incomplete_handler : M → Except E (Option R))
    (tbl : Table K M) : List M → Option (Table K M)
  | [] => some tbl
  | msg :: rest =>
    match processor_function key_fn merge_fn sufficiency_fn process_fn
        incomplete_handler tbl msg with
    | (tbl', _, Except.ok _) =>
      runCallsOk key_fn merge_fn sufficiency_fn process_fn incomplete_handler
        tbl' rest
    | (_, _, Except.error _) => none

/-- Runs a sequence of calls through the processor, threading the table and
ignoring outcomes (each call's table effect is kept even if the call
raised, matching Python where the upsert precedes any later raise). -/
def runCalls {K M R E : Type} [DecidableEq K]
    (key_fn : M → Except E K)
    (merge_fn : M → M → Except E M)
    (sufficiency_fn : M → Except E Bool)
    (process_fn : M → Except E (Option R))
    (incomplete_handler : M → Except E (Option R))
    (tbl : Table K M) : List M → Table K M
  | [] => tbl
  | msg :: rest =>
    runCalls key_fn merge_fn sufficiency_fn process_fn incomplete_handler
      ((processor_function key_fn merge_fn sufficiency_fn process_fn
          incomplete_handler tbl msg).1) rest

/-- The table state after `tbl.pop(k)` removed key `k` (helper used to state
the result of a successful pop). -/
def Table.eraseKey {K M : Type} [DecidableEq K] (t : Table K M) (k : K) :
    Table K M :=
  { t with entries := fun k' => if k' = k then none else t.entries k' }

/-- The arguments of the `sufficiency_fn` invocations in a trace. -/
def suffArgs {M : Type} (log : List (CallEvent M)) : List M :=
  log.filterMap fun ev =>
    match ev with
    | CallEvent.suffEv a => some a
    | _ => none

/-- Boolean test "this fragment's key is `k0`" (false when `key_fn`
raises); used to express per-key isolation of interleaved runs. -/
def hasKey {K M E : Type} [DecidableEq K] (key_fn : M → Except E K) (k0 : K)
    (m : M) : Bool :=
  match key_fn m with
  | Except.ok k => k = k0
  | Except.error _ => false

/-- The store-side invariant of the spec: every key present in the store
holds a composite on which `sufficiency_fn` returns `False`. -/
def insufficientInv {K M E : Type} (sufficiency_fn : M → Except E Bool)
    (t : Table K M) : Prop :=
  ∀ k v, t.entries k = some v → sufficiency_fn v = Except.ok false

/-! ### Concrete instances used by witnesses

A small executable world over `Nat`: keys are the last decimal digit of a
fragment, merging adds, a composite is sufficient once it reaches 20. -/

def emptyTbl : Table Nat Nat := { default := none, entries := fun _ => none }

def badTbl : Table Nat Nat := { default := some 0, entries := fun _ => none }

def cKey : Nat → Except Nat Nat := fun m => Except.ok (m % 10)

def cMerge : Nat → Nat → Except Nat Nat := fun a b => Except.ok (a + b)

def cSuff : Nat → Except Nat Bool := fun c => Except.ok (Nat.ble 20 c)

def cProc : Nat → Except Nat (Option Nat) := fun c => Except.ok (some c)

def cInc : Nat → Except Nat (Option Nat) := fun c => Except.ok (some (c + 100))

def cKeyFail : Nat → Except Nat Nat := fun _ => Except.error 7

def cMergeFail : Nat → Nat → Except Nat Nat := fun _ _ => Except.error 42

def cSuffFail : Nat → Except Nat Bool := fun _ => Except.error 8

def cProcFail : Nat → Except Nat (Option Nat) := fun _ => Except.error 9

def cIncFail : Nat → Except Nat (Option Nat) := fun _ => Except.error 10

/-! ### Basic table lemmas -/

theorem Table.setItem_entries_self {K M : Type} [DecidableEq K]
    (t : Table K M) (k : K) (v : M) : (t.setItem k v).entries k = some v := by
  simp [Table.setItem]

theorem Table.setItem_entries_ne {K M : Type} [DecidableEq K]
    (t : Table K M) (k : K) (v : M) {k' : K} (h : k' ≠ k) :
    (t.setItem k v).entries k' = t.entries k' := by
  simp [Table.setItem, h]

theorem Table.setItem_default {K M : Type} [DecidableEq K]
    (t : Table K M) (k : K) (v : M) : (t.setItem k v).default = t.default := rfl

theorem Table.eraseKey_entries_self {K M : Type} [DecidableEq K]
    (t : Table K M) (k : K) : (t.eraseKey k).entries k = none := by
  simp [Table.eraseKey]

theorem Table.eraseKey_entries_ne {K M : Type} [DecidableEq K]
    (t : Table K M) (k : K) {k' : K} (h : k' ≠ k) :
    (t.eraseKey k).entries k' = t.entries k' := by
  simp [Table.eraseKey, h]

theorem Table.eraseKey_default {K M : Type} [DecidableEq K]
    (t : Table K M) (k : K) : (t.eraseKey k).default = t.default := rfl

theorem Table.getItem_setItem_self {K M : Type} [DecidableEq K]
    (t : Table K M) (k : K) (v : M) : (t.setItem k v).getItem k = some v := by
  simp [Table.getItem, Table.setItem]

theorem Table.pop_setItem_self {K M : Type} [DecidableEq K]
    (t : Table K M) (k : K) (v : M) :
    (t.setItem k v).pop k = some (v, (t.setItem k v).eraseKey k) := by
  simp [Table.pop, Table.eraseKey, Table.setItem_entries_self]

theorem Table.get_of_absent {K M : Type} (t : Table K M) (k : K) (f : M)
    (hd : t.default = none) (he : t.entries k = none) : t.get k f = f := by
  simp [Table.get, hd, he]

theorem Table.get_of_mem {K M : Type} (t : Table K M) (k : K) (f v : M)
    (he : t.entries k = some v) : t.get k f = v := by
  simp [Table.get, he]

theorem Table.get_congr {K M : Type} {t1 t2 : Table K M} {k : K} (f : M)
    (hd : t1.default = t2.default) (he : t1.entries k = t2.entries k) :
    t1.get k f = t2.get k f := by
  unfold Table.get
  rw [he, hd]

/-! ### Characterization of `processor_function` by control path

These lemmas trace each branch of the Python function: the two callable
failure exits before the write, and the three outcomes after the write and
re-read (sufficiency raised / insufficient / sufficient). -/

section Characterization

variable {K M R E : Type} [DecidableEq K]
variable {key_fn : M → Except E K} {merge_fn : M → M → Except E M}
variable {sufficiency_fn : M → Except E Bool} {process_fn : M → Except E (Option R)}
variable {incomplete_handler : M → Except E (Option R)}
variable {tbl : Table K M} {m : M}

theorem processor_key_error {e : E} (hk : key_fn m = Except.error e) :
    processor_function key_fn merge_fn sufficiency_fn process_fn
      incomplete_handler tbl m =
    (tbl, [CallEvent.keyEv m], Except.error (PyExc.user e)) := by
  simp [processor_function, hk]

theorem processor_merge_error {k : K} {e : E}
    (hk : key_fn m = Except.ok k)
    (hm : merge_fn m (tbl.get k m) = Except.error e) :
    processor_function key_fn merge_fn sufficiency_fn process_fn
      incomplete_handler tbl m =
    (tbl, [CallEvent.keyEv m, CallEvent.mergeEv m (tbl.get k m)],
      Except.error (PyExc.user e)) := by
  simp [processor_function, hk, hm]

theorem processor_suff_error {k : K} {c : M} {e : E}
    (hk : key_fn m = Except.ok k)
    (hm : merge_fn m (tbl.get k m) = Except.ok c)
    (hs : sufficiency_fn c = Except.error e) :
    processor_function key_fn merge_fn sufficiency_fn process_fn
      incomplete_handler tbl m =
    (tbl.setItem k c,
      [CallEvent.keyEv m, CallEvent.mergeEv m (tbl.get k m), CallEvent.suffEv c],
      Except.error (PyExc.user e)) := by
  simp [processor_function, hk, hm, hs, Table.getItem_setItem_self]

theorem processor_insufficient {k : K} {c : M}
    (hk : key_fn m = Except.ok k)
    (hm : merge_fn m (tbl.get k m) = Except.ok c)
    (hs : sufficiency_fn c = Except.ok false) :
    processor_function key_fn merge_fn sufficiency_fn process_fn
      incomplete_handler tbl m =
    (tbl.setItem k c,
      [CallEvent.keyEv m, CallEvent.mergeEv m (tbl.get k m), CallEvent.suffEv c,
        CallEvent.incompleteEv c],
      (incomplete_handler c).mapError PyExc.user) := by
  simp [processor_function, hk, hm, hs, Table.getItem_setItem_self]

theorem processor_process_error {k : K} {c : M} {e : E}
    (hk : key_fn m = Except.ok k)
    (hm : merge_fn m (tbl.get k m) = Except.ok c)
    (hs : sufficiency_fn c = Except.ok true)
    (hp : process_fn c = Except.error e) :
    processor_function key_fn merge_fn sufficiency_fn process_fn
      incomplete_handler tbl m =
    (tbl.setItem k c,
      [CallEvent.keyEv m, CallEvent.mergeEv m (tbl.get k m), CallEvent.suffEv c,
        CallEvent.processEv c],
      Except.error (PyExc.user e)) := by
  simp [processor_function, hk, hm, hs, hp, Table.getItem_setItem_self]

theorem processor_sufficient {k : K} {c : M} {r : Option R}
    (hk : key_fn m = Except.ok k)
    (hm : merge_fn m (tbl.get k m) = Except.ok c)
    (hs : sufficiency_fn c = Except.ok true)
    (hp : process_fn c = Except.ok r) :
    processor_function key_fn merge_fn sufficiency_fn process_fn
      incomplete_handler tbl m =
    ((tbl.setItem k c).eraseKey k,
      [CallEvent.keyEv m, CallEvent.mergeEv m (tbl.get k m), CallEvent.suffEv c,
        CallEvent.processEv c],
      Except.ok r) := by
  simp [processor_function, hk, hm, hs, hp, Table.getItem_setItem_self,
    Table.pop_setItem_self]

end Characterization

/-! ### Frame, default-preservation and no-KeyError lemmas -/

section Helpers

variable {K M R E : Type} [DecidableEq K]
variable {key_fn : M → Except E K} {merge_fn : M → M → Except E M}
variable {sufficiency_fn : M → Except E Bool} {process_fn : M → Except E (Option R)}
variable {incomplete_handler : M → Except E (Option R)}

theorem processor_entries_ne {tbl : Table K M} {m : M} {k : K}
    (hk : key_fn m = Except.ok k) {k' : K} (hne : k' ≠ k) :
    ((processor_function key_fn merge_fn sufficiency_fn process_fn
        incomplete_handler tbl m).1).entries k' = tbl.entries k' := by
  rcases hm : merge_fn m (tbl.get k m) with e | c
  · simp [processor_merge_error hk hm]
  · rcases hs : sufficiency_fn c with e | b
    · simp [processor_suff_error hk hm hs, Table.setItem_entries_ne tbl k c hne]
    · cases b
      · simp [processor_insufficient hk hm hs, Table.setItem_entries_ne tbl k c hne]
      · rcases hp : process_fn c with e | r
        · simp [processor_process_error hk hm hs hp,
            Table.setItem_entries_ne tbl k c hne]
        · simp [processor_sufficient hk hm hs hp,
            Table.eraseKey_entries_ne (tbl.setItem k c) k hne,
            Table.setItem_entries_ne tbl k c hne]

theorem processor_default_eq (tbl : Table K M) (m : M) :
    ((processor_function key_fn merge_fn sufficiency_fn process_fn
        incomplete_handler tbl m).1).default = tbl.default := by
  rcases hk : key_fn m with e | k
  · simp [processor_key_error hk]
  · rcases hm : merge_fn m (tbl.get k m) with e | c
    · simp [processor_merge_error hk hm]
    · rcases hs : sufficiency_fn c with e | b
      · simp [processor_suff_error hk hm hs, Table.setItem_default]
      · cases b
        · simp [processor_insufficient hk hm hs, Table.setItem_default]
        · rcases hp : process_fn c with e | r
          · simp [processor_process_error hk hm hs hp, Table.setItem_default]
          · simp [processor_sufficient hk hm hs hp, Table.eraseKey_default,
              Table.setItem_default]

theorem processor_no_keyError (tbl : Table K M) (m : M) :
    (processor_function key_fn merge_fn sufficiency_fn process_fn
        incomplete_handler tbl m).2.2 ≠ Except.error PyExc.keyError := by
  rcases hk : key_fn m with e | k
  · simp [processor_key_error hk]
  · rcases hm : merge_fn m (tbl.get k m) with e | c
    · simp [processor_merge_error hk hm]
    · rcases hs : sufficiency_fn c with e | b
      · simp [processor_suff_error hk hm hs]
      · cases b
        · rcases hi : incomplete_handler c with e | r
          · simp [processor_insufficient hk hm hs, hi, Except.mapError]
          · simp [processor_insufficient hk hm hs, hi, Except.mapError]
        · rcases hp : process_fn c with e | r
          · simp [processor_process_error hk hm hs hp]
          · simp [processor_sufficient hk hm hs hp]

theorem processor_entries_agree {t1 t2 : Table K M} {k0 : K}
    (hd : t1.default = t2.default) (he : t1.entries k0 = t2.entries k0) (m : M) :
    ((processor_function key_fn merge_fn sufficiency_fn process_fn
        incomplete_handler t1 m).1).entries k0 =
    ((processor_function key_fn merge_fn sufficiency_fn process_fn
        incomplete_handler t2 m).1).entries k0 := by
  rcases hk : key_fn m with e | k
  · simp [processor_key_error hk, he]
  · by_cases hkk : k = k0
    · subst hkk
      have hget : t1.get k m = t2.get k m := Table.get_congr m hd he
      rcases hm : merge_fn m (t1.get k m) with e | c
      · have hm2 : merge_fn m (t2.get k m) = Except.error e := by
          rw [← hget]; exact hm
        simp [processor_merge_error hk hm, processor_merge_error hk hm2, he]
      · have hm2 : merge_fn m (t2.get k m) = Except.ok c := by
          rw [← hget]; exact hm
        rcases hs : sufficiency_fn c with e | b
        · simp [processor_suff_error hk hm hs, processor_suff_error hk hm2 hs,
            Table.setItem_entries_self]
        · cases b
          · simp [processor_insufficient hk hm hs, processor_insufficient hk hm2 hs,
              Table.setItem_entries_self]
          · rcases hp : process_fn c with e | r
            · simp [processor_process_error hk hm hs hp,
                processor_process_error hk hm2 hs hp, Table.setItem_entries_self]
            · simp [processor_sufficient hk hm hs hp,
                processor_sufficient hk hm2 hs hp, Table.eraseKey_entries_self]
    · rw [processor_entries_ne hk (Ne.symm hkk), processor_entries_ne hk (Ne.symm hkk)]
      exact he

theorem runCalls_entries_congr (k0 : K) :
    ∀ (msgs : List M) (t1 t2 : Table K M), t1.default = t2.default →
      t1.entries k0 = t2.entries k0 →
      (runCalls key_fn merge_fn sufficiency_fn process_fn incomplete_handler
          t1 msgs).entries k0 =
      (runCalls key_fn merge_fn sufficiency_fn process_fn incomplete_handler
          t2 msgs).entries k0 := by
  intro msgs
  induction msgs with
  | nil => intro t1 t2 _ he; exact he
  | cons msg rest ih =>
    intro t1 t2 hd he
    simp only [runCalls]
    exact ih _ _
      (by rw [processor_default_eq, processor_default_eq, hd])
      (processor_entries_agree hd he msg)

theorem runCalls_key_isolated (k0 : K) :
    ∀ (msgs : List M) (tbl : Table K M),
      (runCalls key_fn merge_fn sufficiency_fn process_fn incomplete_handler
          tbl msgs).entries k0 =
      (runCalls key_fn merge_fn sufficiency_fn process_fn incomplete_handler
          tbl (msgs.filter (hasKey key_fn k0))).entries k0 := by
  intro msgs
  induction msgs with
  | nil => intro tbl; rfl
  | cons msg rest ih =>
    intro tbl
    by_cases h : hasKey key_fn k0 msg = true
    · rw [List.filter_cons_of_pos h]
      simp only [runCalls]
      exact ih _
    · rw [List.filter_cons_of_neg (by simpa using h)]
      simp only [runCalls]
      have hagree : ((processor_function key_fn merge_fn sufficiency_fn process_fn
          incomplete_handler tbl msg).1).entries k0 = tbl.entries k0 := by
        unfold hasKey at h
        rcases hk : key_fn msg with e | k
        · simp [processor_key_error hk]
        · rw [hk] at h
          have hkk : ¬ (k = k0) := by simpa using h
          exact processor_entries_ne hk (Ne.symm hkk)
      exact (ih _).trans
        (runCalls_entries_congr k0 (rest.filter (hasKey key_fn k0)) _ _
          (processor_default_eq tbl msg) hagree)

theorem processor_preserves_inv {tbl : Table K M} {m : M}
    (hinv : insufficientInv sufficiency_fn tbl)
    (hok : ∃ r, (processor_function key_fn merge_fn sufficiency_fn process_fn
        incomplete_handler tbl m).2.2 = Except.ok r) :
    insufficientInv sufficiency_fn
      ((processor_function key_fn merge_fn sufficiency_fn process_fn
          incomplete_handler tbl m).1) := by
  rcases hk : key_fn m with e | k
  · simp only [processor_key_error hk]; exact hinv
  · rcases hm : merge_fn m (tbl.get k m) with e | c
    · simp only [processor_merge_error hk hm]; exact hinv
    · rcases hs : sufficiency_fn c with e | b
      · rcases hok with ⟨r, hr⟩
        rw [processor_suff_error hk hm hs] at hr
        simp at hr
      · cases b
        · simp only [processor_insufficient hk hm hs]
          intro k' v hv
          by_cases hkk : k' = k
          · subst hkk
            rw [Table.setItem_entries_self] at hv
            cases hv
            exact hs
          · rw [Table.setItem_entries_ne tbl k c hkk] at hv
            exact hinv k' v hv
        · rcases hp : process_fn c with e | r
          · rcases hok with ⟨r, hr⟩
            rw [processor_process_error hk hm hs hp] at hr
            simp at hr
          · simp only [processor_sufficient hk hm hs hp]
            intro k' v hv
            by_cases hkk : k' = k
            · subst hkk
              rw [Table.eraseKey_entries_self] at hv
              cases hv
            · rw [Table.eraseKey_entries_ne (tbl.setItem k c) k hkk,
                Table.setItem_entries_ne tbl k c hkk] at hv
              exact hinv k' v hv

theorem runCallsOk_preserves_inv :
    ∀ (msgs : List M) (tbl tbl' : Table K M),
      insufficientInv sufficiency_fn tbl →
      runCallsOk key_fn merge_fn sufficiency_fn process_fn incomplete_handler
          tbl msgs = some tbl' →
      insufficientInv sufficiency_fn tbl' := by
  intro msgs
  induction msgs with
  | nil =>
    intro tbl tbl' hinv h
    simp only [runCallsOk] at h
    cases h
    exact hinv
  | cons msg rest ih =>
    intro tbl tbl' hinv h
    simp only [runCallsOk] at h
    rcases hres : processor_function key_fn merge_fn sufficiency_fn process_fn
        incomplete_handler tbl msg with ⟨t1, log, res⟩
    rw [hres] at h
    rcases res with e | r
    · simp at h
    · simp only [] at h
      have hinv1 : insufficientInv sufficiency_fn t1 := by
        have h2 := processor_preserves_inv (m := msg) hinv ⟨r, by rw [hres]⟩
        rwa [hres] at h2
      exact ih t1 tbl' hinv1 h

end Helpers

example :
    (processor_function cKey cMerge cSuff cProc cInc emptyTbl 3).2.2 =
      Except.ok (some 106) := rfl

example :
    (processor_function cKey cMerge cSuff cProc cInc emptyTbl 3).1.entries 3 =
      some 6 := by decide

example :
    (processor_function cKey cMerge cSuff cProc cInc emptyTbl 23).2.2 =
      Except.ok (some 46) := rfl

example :
    (processor_function cKey cMerge cSuff cProc cInc emptyTbl 23).1.entries 3 =
      none := by decide

/-! ### Claim theorems -/

/-- Claim C1: after any sequence of completed calls into the processor,
every key present in the store holds an insufficient composite (the
invariant is preserved); and within a completed call, if the merged
composite is sufficient then `process_fn` was invoked exactly once with
that composite and the key is absent afterwards, while an insufficient
merged composite is present under its key afterwards. -/
theorem presence_iff_insufficient {K M R E : Type} [DecidableEq K]
    {key_fn : M → Except E K} {merge_fn : M → M → Except E M}
    {sufficiency_fn : M → Except E Bool} {process_fn : M → Except E (Option R)}
    {incomplete_handler : M → Except E (Option R)} {tbl : Table K M}
    (hd : tbl.default = none)
    (hinv : insufficientInv sufficiency_fn tbl) :
    (∀ (msgs : List M) (tbl' : Table K M),
      runCallsOk key_fn merge_fn sufficiency_fn process_fn incomplete_handler
          tbl msgs = some tbl' →
      insufficientInv sufficiency_fn tbl') ∧
    (∀ (m : M) (k : K) (c : M) (r : Option R),
      key_fn m = Except.ok k →
      merge_fn m (tbl.get k m) = Except.ok c →
      sufficiency_fn c = Except.ok true →
      (processor_function key_fn merge_fn sufficiency_fn process_fn
          incomplete_handler tbl m).2.2 = Except.ok r →
      processArgs (processor_function key_fn merge_fn sufficiency_fn process_fn
          incomplete_handler tbl m).2.1 = [c] ∧
      ((processor_function key_fn merge_fn sufficiency_fn process_fn
          incomplete_handler tbl m).1).entries k = none) ∧
    (∀ (m : M) (k : K) (c : M),
      key_fn m = Except.ok k →
      merge_fn m (tbl.get k m) = Except.ok c →
      sufficiency_fn c = Except.ok false →
      ((processor_function key_fn merge_fn sufficiency_fn process_fn
          incomplete_handler tbl m).1).entries k = some c) := by
  refine ⟨?_, ?_, ?_⟩
  · intro msgs tbl' hrun
    exact runCallsOk_preserves_inv msgs tbl tbl' hinv hrun
  · intro m k c r hk hm hs hok
    rcases hp : process_fn c with e1 | r1
    · rw [processor_process_error hk hm hs hp] at hok
      simp at hok
    · constructor
      · simp [processor_sufficient hk hm hs hp, processArgs]
      · simp [processor_sufficient hk hm hs hp, Table.eraseKey_entries_self]
  · intro m k c hk hm hs
    simp [processor_insufficient hk hm hs, Table.setItem_entries_self]

theorem presence_iff_insufficient_witness :
    cSuff 19 = Except.ok false ∧
    processArgs (processor_function cKey cMerge cSuff cProc cInc
        emptyTbl 23).2.1 = [46] ∧
    ((processor_function cKey cMerge cSuff cProc cInc emptyTbl 23).1).entries 3 =
      none := by
  have h := @presence_iff_insufficient Nat Nat Nat Nat _ cKey cMerge cSuff cProc
    cInc emptyTbl rfl (fun _ _ hv => Option.noConfusion hv)
  refine ⟨?_, ?_, ?_⟩
  · exact h.1 [3, 13] ((emptyTbl.setItem 3 6).setItem 3 19) rfl 3 19 rfl
  · exact (h.2.1 23 3 46 (some 46) rfl rfl rfl rfl).1
  · exact (h.2.1 23 3 46 (some 46) rfl rfl rfl rfl).2

/-- Claim C2: constructing the engine against a store whose configured
default is not the absence sentinel raises `TableJoinDefaultException` and
returns no processor; against a store with an absent default, construction
succeeds and returns the processor bound to the supplied callables. -/
theorem config_guard {K M R E : Type} [DecidableEq K]
    (tbl : Table K M) (key_fn : M → Except E K) (merge_fn : M → M → Except E M)
    (sufficiency_fn : M → Except E Bool) (process_fn : M → Except E (Option R))
    (handle_incomplete_fn : Option (M → Except E (Option R))) :
    (make_joining_func tbl key_fn merge_fn sufficiency_fn process_fn
        handle_incomplete_fn = Except.error TableJoinDefaultException.mk ↔
      tbl.default ≠ none) ∧
    (tbl.default = none →
      make_joining_func tbl key_fn merge_fn sufficiency_fn process_fn
          handle_incomplete_fn =
        Except.ok (processor_function key_fn merge_fn sufficiency_fn process_fn
          (handle_incomplete_fn.getD (fun _ => Except.ok none)))) := by
  constructor
  · unfold make_joining_func
    rcases hdef : tbl.default with _ | d
    · simp
    · simp
  · intro hd
    unfold make_joining_func
    simp [hd]

theorem config_guard_witness :
    make_joining_func badTbl cKey cMerge cSuff cProc (some cInc) =
      Except.error TableJoinDefaultException.mk ∧
    make_joining_func emptyTbl cKey cMerge cSuff cProc (some cInc) =
      Except.ok (processor_function cKey cMerge cSuff cProc
        ((some cInc).getD (fun _ => Except.ok none))) := by
  constructor
  · exact (config_guard badTbl cKey cMerge cSuff cProc (some cInc)).1.mpr
      (by simp [badTbl])
  · exact (config_guard emptyTbl cKey cMerge cSuff cProc (some cInc)).2 rfl

/-- Claim C3: for a fragment whose key has no prior entry, the existing
value fed to the merge is the fragment itself, so an insufficient result
leaves exactly one entry for that key, equal to `merge_fn(fragment,
fragment)`, with every other key untouched. -/
theorem first_fragment_identity_fallback {K M R E : Type} [DecidableEq K]
    {key_fn : M → Except E K} {merge_fn : M → M → Except E M}
    {sufficiency_fn : M → Except E Bool} {process_fn : M → Except E (Option R)}
    {incomplete_handler : M → Except E (Option R)}
    {tbl : Table K M} {m : M} {k : K} {c : M}
    (hd : tbl.default = none) (he : tbl.entries k = none)
    (hk : key_fn m = Except.ok k) (hm : merge_fn m m = Except.ok c)
    (hs : sufficiency_fn c = Except.ok false) :
    mergeArgs (processor_function key_fn merge_fn sufficiency_fn process_fn
        incomplete_handler tbl m).2.1 = [(m, m)] ∧
    ((processor_function key_fn merge_fn sufficiency_fn process_fn
        incomplete_handler tbl m).1).entries k = some c ∧
    (∀ k', k' ≠ k →
      ((processor_function key_fn merge_fn sufficiency_fn process_fn
          incomplete_handler tbl m).1).entries k' = tbl.entries k') := by
  have hget : tbl.get k m = m := Table.get_of_absent tbl k m hd he
  have hm' : merge_fn m (tbl.get k m) = Except.ok c := by rw [hget]; exact hm
  refine ⟨?_, ?_, ?_⟩
  · simp [processor_insufficient hk hm' hs, mergeArgs, hget]
  · simp [processor_insufficient hk hm' hs, Table.setItem_entries_self]
  · intro k' hk'
    exact processor_entries_ne hk hk'

theorem first_fragment_identity_fallback_witness :
    mergeArgs (processor_function cKey cMerge cSuff cProc cInc
        emptyTbl 3).2.1 = [(3, 3)] ∧
    ((processor_function cKey cMerge cSuff cProc cInc emptyTbl 3).1).entries 3 =
      some 6 := by
  have h := @first_fragment_identity_fallback Nat Nat Nat Nat _ cKey cMerge
    cSuff cProc cInc emptyTbl 3 3 6 rfl rfl rfl rfl rfl
  exact ⟨h.1, h.2.1⟩

/-- Claim C4 (counterexample): two calls that fail inside `merge_fn` under
different keys propagate identical exceptions, so the propagated failure
cannot determine (does not carry) the key it occurred on — there is no
`CallableFailure` wrapper attaching the key in the code. -/
theorem propagated_failure_lacks_key :
    ¬ ∃ keyOf : PyExc Nat → Nat,
        ∀ (m k : Nat) (exc : PyExc Nat),
          cKey m = Except.ok k →
          (processor_function cKey cMergeFail cSuff cProc cInc
              emptyTbl m).2.2 = Except.error exc →
          keyOf exc = k := by
  rintro ⟨keyOf, hke⟩
  have h1 : keyOf (PyExc.user 42) = 1 := hke 1 1 (PyExc.user 42) rfl rfl
  have h2 : keyOf (PyExc.user 42) = 2 := hke 2 2 (PyExc.user 42) rfl rfl
  rw [h1] at h2
  exact absurd h2 (by decide)

/-- Claim C4 (amended): when any of the caller-supplied callables raises
during a call, the failure propagates to the caller as the original
exception, unchanged and with no wrapper attaching the key. -/
theorem failure_propagates_original_error {K M R E : Type} [DecidableEq K]
    (key_fn : M → Except E K) (merge_fn : M → M → Except E M)
    (sufficiency_fn : M → Except E Bool) (process_fn : M → Except E (Option R))
    (incomplete_handler : M → Except E (Option R))
    (tbl : Table K M) (m : M) (e : E) :
    (key_fn m = Except.error e →
      (processor_function key_fn merge_fn sufficiency_fn process_fn
          incomplete_handler tbl m).2.2 = Except.error (PyExc.user e)) ∧
    (∀ k, key_fn m = Except.ok k →
      merge_fn m (tbl.get k m) = Except.error e →
      (processor_function key_fn merge_fn sufficiency_fn process_fn
          incomplete_handler tbl m).2.2 = Except.error (PyExc.user e)) ∧
    (∀ k c, key_fn m = Except.ok k →
      merge_fn m (tbl.get k m) = Except.ok c →
      sufficiency_fn c = Except.error e →
      (processor_function key_fn merge_fn sufficiency_fn process_fn
          incomplete_handler tbl m).2.2 = Except.error (PyExc.user e)) ∧
    (∀ k c, key_fn m = Except.ok k →
      merge_fn m (tbl.get k m) = Except.ok c →
      sufficiency_fn c = Except.ok true → process_fn c = Except.error e →
      (processor_function key_fn merge_fn sufficiency_fn process_fn
          incomplete_handler tbl m).2.2 = Except.error (PyExc.user e)) ∧
    (∀ k c, key_fn m = Except.ok k →
      merge_fn m (tbl.get k m) = Except.ok c →
      sufficiency_fn c = Except.ok false →
      incomplete_handler c = Except.error e →
      (processor_function key_fn merge_fn sufficiency_fn process_fn
          incomplete_handler tbl m).2.2 = Except.error (PyExc.user e)) := by
  refine ⟨?_, ?_, ?_, ?_, ?_⟩
  · intro hk
    simp [processor_key_error hk]
  · intro k hk hm
    simp [processor_merge_error hk hm]
  · intro k c hk hm hs
    simp [processor_suff_error hk hm hs]
  · intro k c hk hm hs hp
    simp [processor_process_error hk hm hs hp]
  · intro k c hk hm hs hi
    simp [processor_insufficient hk hm hs, hi, Except.mapError]

theorem failure_propagates_original_error_witness :
    (processor_function cKeyFail cMerge cSuff cProc cInc emptyTbl 5).2.2 =
      Except.error (PyExc.user 7) ∧
    (processor_function cKey cMergeFail cSuff cProc cInc emptyTbl 5).2.2 =
      Except.error (PyExc.user 42) := by
  constructor
  · exact (failure_propagates_original_error cKeyFail cMerge cSuff cProc cInc
      emptyTbl 5 7).1 rfl
  · exact (failure_propagates_original_error cKey cMergeFail cSuff cProc cInc
      emptyTbl 5 42).2.1 5 rfl rfl

/-- Claim C5: for a fragment whose key already has an entry `v`, the merge
is invoked exactly once as `merge_fn(fragment, v)` — new fragment first,
prior composite second — its result is the composite tested for
sufficiency, and on the insufficient path that result is the new stored
composite. -/
theorem merge_ordering_new_fragment_first {K M R E : Type} [DecidableEq K]
    {key_fn : M → Except E K} {merge_fn : M → M → Except E M}
    {sufficiency_fn : M → Except E Bool} {process_fn : M → Except E (Option R)}
    {incomplete_handler : M → Except E (Option R)}
    {tbl : Table K M} {m : M} {k : K} {v c : M}
    (hd : tbl.default = none) (he : tbl.entries k = some v)
    (hk : key_fn m = Except.ok k) (hm : merge_fn m v = Except.ok c) :
    mergeArgs (processor_function key_fn merge_fn sufficiency_fn process_fn
        incomplete_handler tbl m).2.1 = [(m, v)] ∧
    suffArgs (processor_function key_fn merge_fn sufficiency_fn process_fn
        incomplete_handler tbl m).2.1 = [c] ∧
    (sufficiency_fn c = Except.ok false →
      ((processor_function key_fn merge_fn sufficiency_fn process_fn
          incomplete_handler tbl m).1).entries k = some c) := by
  have hget : tbl.get k m = v := Table.get_of_mem tbl k m v he
  have hm' : merge_fn m (tbl.get k m) = Except.ok c := by rw [hget]; exact hm
  refine ⟨?_, ?_, ?_⟩
  · rcases hs : sufficiency_fn c with e1 | b
    · simp [processor_suff_error hk hm' hs, mergeArgs, hget]
    · cases b
      · simp [processor_insufficient hk hm' hs, mergeArgs, hget]
      · rcases hp : process_fn c with e1 | r1
        · simp [processor_process_error hk hm' hs hp, mergeArgs, hget]
        · simp [processor_sufficient hk hm' hs hp, mergeArgs, hget]
  · rcases hs : sufficiency_fn c with e1 | b
    · simp [processor_suff_error hk hm' hs, suffArgs]
    · cases b
      · simp [processor_insufficient hk hm' hs, suffArgs]
      · rcases hp : process_fn c with e1 | r1
        · simp [processor_process_error hk hm' hs hp, suffArgs]
        · simp [processor_sufficient hk hm' hs hp, suffArgs]
  · intro hs
    simp [processor_insufficient hk hm' hs, Table.setItem_entries_self]

theorem merge_ordering_new_fragment_first_witness :
    mergeArgs (processor_function cKey cMerge cSuff cProc cInc
        (emptyTbl.setItem 3 6) 13).2.1 = [(13, 6)] ∧
    suffArgs (processor_function cKey cMerge cSuff cProc cInc
        (emptyTbl.setItem 3 6) 13).2.1 = [19] := by
  have h := @merge_ordering_new_fragment_first Nat Nat Nat Nat _ cKey cMerge
    cSuff cProc cInc (emptyTbl.setItem 3 6) 13 3 6 19 rfl rfl rfl rfl
  exact ⟨h.1, h.2.1⟩

/-- Claim C6: in every call, exactly one of `process_fn` and the
incomplete handler is invoked, on the composite re-read after the write:
when sufficiency holds `process_fn` runs (once, and its normal result is
returned; the handler never runs), and when it does not the handler runs
(once, its normal result is returned, `process_fn` never runs, and the
entry is retained). -/
theorem process_xor_incomplete {K M R E : Type} [DecidableEq K]
    {key_fn : M → Except E K} {merge_fn : M → M → Except E M}
    {sufficiency_fn : M → Except E Bool} {process_fn : M → Except E (Option R)}
    {incomplete_handler : M → Except E (Option R)}
    {tbl : Table K M} {m : M} {k : K} {c : M}
    (hd : tbl.default = none)
    (hk : key_fn m = Except.ok k)
    (hm : merge_fn m (tbl.get k m) = Except.ok c) :
    (sufficiency_fn c = Except.ok true →
      processArgs (processor_function key_fn merge_fn sufficiency_fn process_fn
          incomplete_handler tbl m).2.1 = [c] ∧
      incompleteArgs (processor_function key_fn merge_fn sufficiency_fn
          process_fn incomplete_handler tbl m).2.1 = [] ∧
      (∀ r, process_fn c = Except.ok r →
        (processor_function key_fn merge_fn sufficiency_fn process_fn
            incomplete_handler tbl m).2.2 = Except.ok r)) ∧
    (sufficiency_fn c = Except.ok false →
      incompleteArgs (processor_function key_fn merge_fn sufficiency_fn
          process_fn incomplete_handler tbl m).2.1 = [c] ∧
      processArgs (processor_function key_fn merge_fn sufficiency_fn process_fn
          incomplete_handler tbl m).2.1 = [] ∧
      (∀ r, incomplete_handler c = Except.ok r →
        (processor_function key_fn merge_fn sufficiency_fn process_fn
            incomplete_handler tbl m).2.2 = Except.ok r) ∧
      ((processor_function key_fn merge_fn sufficiency_fn process_fn
          incomplete_handler tbl m).1).entries k = some c) := by
  constructor
  · intro hs
    rcases hp : process_fn c with e1 | r1
    · refine ⟨?_, ?_, ?_⟩
      · simp [processor_process_error hk hm hs hp, processArgs]
      · simp [processor_process_error hk hm hs hp, incompleteArgs]
      · intro r hr
        exact Except.noConfusion hr
    · refine ⟨?_, ?_, ?_⟩
      · simp [processor_sufficient hk hm hs hp, processArgs]
      · simp [processor_sufficient hk hm hs hp, incompleteArgs]
      · intro r hr
        cases hr
        simp [processor_sufficient hk hm hs hp]
  · intro hs
    refine ⟨?_, ?_, ?_, ?_⟩
    · simp [processor_insufficient hk hm hs, incompleteArgs]
    · simp [processor_insufficient hk hm hs, processArgs]
    · intro r hr
      simp [processor_insufficient hk hm hs, hr, Except.mapError]
    · simp [processor_insufficient hk hm hs, Table.setItem_entries_self]

theorem process_xor_incomplete_witness :
    (processArgs (processor_function cKey cMerge cSuff cProc cInc
        emptyTbl 23).2.1 = [46] ∧
      incompleteArgs (processor_function cKey cMerge cSuff cProc cInc
        emptyTbl 23).2.1 = []) ∧
    (incompleteArgs (processor_function cKey cMerge cSuff cProc cInc
        emptyTbl 3).2.1 = [6] ∧
      (processor_function cKey cMerge cSuff cProc cInc emptyTbl 3).2.2 =
        Except.ok (some 106)) := by
  have h23 := @process_xor_incomplete Nat Nat Nat Nat _ cKey cMerge cSuff cProc
    cInc emptyTbl 23 3 46 rfl rfl rfl
  have h3 := @process_xor_incomplete Nat Nat Nat Nat _ cKey cMerge cSuff cProc
    cInc emptyTbl 3 3 6 rfl rfl rfl
  refine ⟨⟨(h23.1 rfl).1, (h23.1 rfl).2.1⟩, ⟨(h3.2 rfl).1, ?_⟩⟩
  exact (h3.2 rfl).2.2.1 (some 106) rfl

/-- Claim C7: when `sufficiency_fn` or `process_fn` raises, the exception
surfaces to the caller and the merged composite already written under the
key remains in the store (no rollback), so the key is still present after
the failed call. -/
theorem failure_leaves_composite_in_store {K M R E : Type} [DecidableEq K]
    {key_fn : M → Except E K} {merge_fn : M → M → Except E M}
    {sufficiency_fn : M → Except E Bool} {process_fn : M → Except E (Option R)}
    {incomplete_handler : M → Except E (Option R)}
    {tbl : Table K M} {m : M} {k : K} {c : M}
    (hd : tbl.default = none)
    (hk : key_fn m = Except.ok k)
    (hm : merge_fn m (tbl.get k m) = Except.ok c) :
    (∀ e, sufficiency_fn c = Except.error e →
      (processor_function key_fn merge_fn sufficiency_fn process_fn
          incomplete_handler tbl m).2.2 = Except.error (PyExc.user e) ∧
      ((processor_function key_fn merge_fn sufficiency_fn process_fn
          incomplete_handler tbl m).1).entries k = some c) ∧
    (∀ e, sufficiency_fn c = Except.ok true → process_fn c = Except.error e →
      (processor_function key_fn merge_fn sufficiency_fn process_fn
          incomplete_handler tbl m).2.2 = Except.error (PyExc.user e) ∧
      ((processor_function key_fn merge_fn sufficiency_fn process_fn
          incomplete_handler tbl m).1).entries k = some c) := by
  constructor
  · intro e hs
    constructor
    · simp [processor_suff_error hk hm hs]
    · simp [processor_suff_error hk hm hs, Table.setItem_entries_self]
  · intro e hs hp
    constructor
    · simp [processor_process_error hk hm hs hp]
    · simp [processor_process_error hk hm hs hp, Table.setItem_entries_self]

theorem failure_leaves_composite_in_store_witness :
    (processor_function cKey cMerge cSuffFail cProc cInc emptyTbl 23).2.2 =
      Except.error (PyExc.user 8) ∧
    ((processor_function cKey cMerge cSuffFail cProc cInc
        emptyTbl 23).1).entries 3 = some 46 ∧
    (processor_function cKey cMerge cSuff cProcFail cInc emptyTbl 23).2.2 =
      Except.error (PyExc.user 9) ∧
    ((processor_function cKey cMerge cSuff cProcFail cInc
        emptyTbl 23).1).entries 3 = some 46 := by
  have hs := (@failure_leaves_composite_in_store Nat Nat Nat Nat _ cKey cMerge
    cSuffFail cProc cInc emptyTbl 23 3 46 rfl rfl rfl).1 8 rfl
  have hp := (@failure_leaves_composite_in_store Nat Nat Nat Nat _ cKey cMerge
    cSuff cProcFail cInc emptyTbl 23 3 46 rfl rfl rfl).2 9 rfl rfl
  exact ⟨hs.1, hs.2, hp.1, hp.2⟩

/-- Claim C8: when no incomplete-handler is supplied at construction, it
defaults to a no-op, so on the insufficient path the processor invokes the
no-op and returns its `None` result. -/
theorem missing_incomplete_handler_noop {K M R E : Type} [DecidableEq K]
    (tbl : Table K M) (key_fn : M → Except E K) (merge_fn : M → M → Except E M)
    (sufficiency_fn : M → Except E Bool) (process_fn : M → Except E (Option R))
    (hd : tbl.default = none) :
    make_joining_func tbl key_fn merge_fn sufficiency_fn process_fn none =
      Except.ok (processor_function key_fn merge_fn sufficiency_fn process_fn
        (fun _ => Except.ok none)) ∧
    (∀ m k c, key_fn m = Except.ok k →
      merge_fn m (tbl.get k m) = Except.ok c →
      sufficiency_fn c = Except.ok false →
      (processor_function key_fn merge_fn sufficiency_fn process_fn
          (fun _ => Except.ok none) tbl m).2.2 = Except.ok none) := by
  constructor
  · unfold make_joining_func
    simp [hd]
  · intro m k c hk hm hs
    simp [processor_insufficient hk hm hs, Except.mapError]

theorem missing_incomplete_handler_noop_witness :
    make_joining_func emptyTbl cKey cMerge cSuff cProc none =
      Except.ok (processor_function cKey cMerge cSuff cProc
        (fun _ => Except.ok none)) ∧
    (processor_function cKey cMerge cSuff cProc (fun _ => Except.ok none)
        emptyTbl 3).2.2 = Except.ok none := by
  have h := missing_incomplete_handler_noop emptyTbl cKey cMerge cSuff cProc rfl
  exact ⟨h.1, h.2 3 3 6 rfl rfl rfl⟩

/-- Claim C9: a call with key `k` leaves the store entries of every other
key unchanged, and hence the final state of any key after an interleaved
sequence of calls equals its final state after processing only that key's
fragments in isolation. -/
theorem cross_key_frame_and_isolation {K M R E : Type} [DecidableEq K]
    {key_fn : M → Except E K} {merge_fn : M → M → Except E M}
    {sufficiency_fn : M → Except E Bool} {process_fn : M → Except E (Option R)}
    {incomplete_handler : M → Except E (Option R)} {tbl : Table K M}
    (hd : tbl.default = none) :
    (∀ (m : M) (k : K), key_fn m = Except.ok k →
      ∀ k', k' ≠ k →
        ((processor_function key_fn merge_fn sufficiency_fn process_fn
            incomplete_handler tbl m).1).entries k' = tbl.entries k') ∧
    (∀ (msgs : List M) (k0 : K),
      (runCalls key_fn merge_fn sufficiency_fn process_fn incomplete_handler
          tbl msgs).entries k0 =
      (runCalls key_fn merge_fn sufficiency_fn process_fn incomplete_handler
          tbl (msgs.filter (hasKey key_fn k0))).entries k0) := by
  constructor
  · intro m k hk k' hk'
    exact processor_entries_ne hk hk'
  · intro msgs k0
    exact runCalls_key_isolated k0 msgs tbl

theorem cross_key_frame_and_isolation_witness :
    ((processor_function cKey cMerge cSuff cProc cInc emptyTbl 23).1).entries 5 =
      emptyTbl.entries 5 ∧
    (runCalls cKey cMerge cSuff cProc cInc emptyTbl [3, 12, 13]).entries 2 =
      (runCalls cKey cMerge cSuff cProc cInc emptyTbl
        ([3, 12, 13].filter (hasKey cKey 2))).entries 2 := by
  have h := @cross_key_frame_and_isolation Nat Nat Nat Nat _ cKey cMerge cSuff
    cProc cInc emptyTbl rfl
  exact ⟨h.1 23 3 rfl 5 (by decide), h.2 [3, 12, 13] 2⟩

/-- Claim C10: on the sufficient path the `tbl.pop(k)` step cannot raise a
missing-key error: the key was written during the same call and nothing
removed it in between, so the pop succeeds — indeed no call of the
processor can ever surface a `KeyError`. -/
theorem sufficient_path_pop_succeeds {K M R E : Type} [DecidableEq K]
    (key_fn : M → Except E K) (merge_fn : M → M → Except E M)
    (sufficiency_fn : M → Except E Bool) (process_fn : M → Except E (Option R))
    (incomplete_handler : M → Except E (Option R))
    (tbl : Table K M) (m : M) (k : K) (c : M) (r : Option R)
    (hk : key_fn m = Except.ok k)
    (hm : merge_fn m (tbl.get k m) = Except.ok c)
    (hs : sufficiency_fn c = Except.ok true)
    (hp : process_fn c = Except.ok r) :
    (tbl.setItem k c).pop k = some (c, (tbl.setItem k c).eraseKey k) ∧
    (processor_function key_fn merge_fn sufficiency_fn process_fn
        incomplete_handler tbl m).2.2 = Except.ok r ∧
    (∀ (tbl' : Table K M) (m' : M),
      (processor_function key_fn merge_fn sufficiency_fn process_fn
          incomplete_handler tbl' m').2.2 ≠ Except.error PyExc.keyError) := by
  refine ⟨Table.pop_setItem_self tbl k c, ?_, ?_⟩
  · simp [processor_sufficient hk hm hs hp]
  · intro tbl' m'
    exact processor_no_keyError tbl' m'

theorem sufficient_path_pop_succeeds_witness :
    (emptyTbl.setItem 3 46).pop 3 =
      some (46, (emptyTbl.setItem 3 46).eraseKey 3) ∧
    (processor_function cKey cMerge cSuff cProc cInc emptyTbl 23).2.2 =
      Except.ok (some 46) := by
  have h := sufficient_path_pop_succeeds cKey cMerge cSuff cProc cInc emptyTbl
    23 3 46 (some 46) rfl rfl rfl rfl
  exact ⟨h.1, h.2.1⟩

end FaustJoins
